import Mathlib

/-!
Shallow embedding of the iaz-dashboard layout core (GridEngine, DragEngine,
ResizeEngine, BreakpointManager) and proofs about the spec's claims.

Conventions of the embedding:
* Grid coordinates and sizes are integers (`Int`), as the grid domain is
  discrete; `Math.round` on an integer is the identity, so `snapToGrid`
  becomes `max 0`.
* Widget ids are `Nat` (an opaque comparable key in the source).
* JavaScript arrays become `List`; in-place mutation becomes explicit
  state passing; `null` becomes `Option`.
* `Math.max(...xs)` over a non-empty list becomes a fold with `max`.
-/

/-- A widget: the data model of `src/types` restricted to the fields the
layout core reads. -/
structure Widget where
  id : Nat
  x : Int
  y : Int
  w : Int
  h : Int
  minW : Option Int := none
  minH : Option Int := none
  maxW : Option Int := none
  maxH : Option Int := none
  locked : Bool := false
  noMove : Bool := false
  noResize : Bool := false
deriving Repr, DecidableEq

/-- The positional subset `{x, y, w, h}` (`GridRect` in `GridEngine.ts`). -/
structure GridRect where
  x : Int
  y : Int
  w : Int
  h : Int
deriving Repr, DecidableEq

/-- Widgets satisfy the `GridRect` shape structurally. -/
def Widget.rect (wd : Widget) : GridRect := ⟨wd.x, wd.y, wd.w, wd.h⟩

/-- `GridEngine.checkCollision`: axis-aligned overlap test, boundaries
exclusive. -/
def checkCollision (w1 w2 : GridRect) : Bool :=
  decide (¬ (w1.x + w1.w ≤ w2.x ∨ w2.x + w2.w ≤ w1.x ∨
             w1.y + w1.h ≤ w2.y ∨ w2.y + w2.h ≤ w1.y))

/-- `GridEngine.getCollidingWidgets`: all widgets of a different id that
collide with the given widget. -/
def getCollidingWidgets (widget : Widget) (widgets : List Widget) : List Widget :=
  widgets.filter (fun u => !(u.id == widget.id) && checkCollision widget.rect u.rect)

/-- `GridEngine.isWithinBounds`. -/
def isWithinBounds (r : GridRect) (columns : Int) : Bool :=
  decide (r.x ≥ 0 ∧ r.x + r.w ≤ columns ∧ r.y ≥ 0)

/-- `GridEngine.snapToGrid`: `Math.max(0, Math.round(value))`; on the
integer grid domain rounding is the identity. -/
def snapToGrid (value : Int) : Int := max 0 value

/-- The comparator of `GridEngine.sortWidgets` as a total preorder:
ascending by `(y, x)`. -/
def wLe (a b : Widget) : Prop := a.y < b.y ∨ (a.y = b.y ∧ a.x ≤ b.x)

instance (a b : Widget) : Decidable (wLe a b) := by
  unfold wLe; infer_instance

/-- Stable insertion of a widget in front of the first element that does not
strictly precede it. -/
def insertW (a : Widget) : List Widget → List Widget
  | [] => [a]
  | b :: l => if wLe a b then a :: b :: l else b :: insertW a l

/-- `GridEngine.sortWidgets`: JavaScript `Array.prototype.sort` is stable,
and a stable sort by a total preorder is unique, so the stable insertion
sort is the faithful embedding. -/
def sortWidgets : List Widget → List Widget
  | [] => []
  | a :: l => insertW a (sortWidgets l)

/-- `GridEngine.getBottomY`: `max(y + h)` over all widgets, `0` when empty. -/
def getBottomY (widgets : List Widget) : Int :=
  match widgets.map (fun u => u.y + u.h) with
  | [] => 0
  | v :: vs => vs.foldl max v

/-- The test of one candidate slot in `findFirstAvailablePosition`: the
rectangle `{x, y, w, h}` collides with nothing in `widgets`. -/
def rectFree (w h : Int) (widgets : List Widget) (x y : Int) : Bool :=
  !(widgets.any (fun e => checkCollision ⟨x, y, w, h⟩ e.rect))

/-- `GridEngine.findFirstAvailablePosition`: row-major scan over rows
`0 .. getBottomY+10` and columns `0 .. columns - w`; a widget wider than
the grid goes to `{x: 0, y: getBottomY}`, as does the fallback when the
scan finds nothing. -/
def findFirstAvailablePosition (w h : Int) (widgets : List Widget)
    (columns : Int) : Int × Int :=
  if w > columns then (0, getBottomY widgets)
  else
    let maxY := getBottomY widgets + 10
    let ys := List.range (maxY + 1).toNat
    let xs := List.range (columns - w + 1).toNat
    match ys.findSome? (fun (yn : Nat) => xs.findSome? (fun (xn : Nat) =>
        if rectFree w h widgets (xn : Int) (yn : Int) then
          some ((xn : Int), (yn : Int))
        else none)) with
    | some p => p
    | none => (0, getBottomY widgets)

/-- The collision test of `compactLayout`'s inner loop:
`compacted.some(w => checkCollision(testWidget, w))`. -/
def collides (m : Widget) (comp : List Widget) : Bool :=
  comp.any (fun u => checkCollision m.rect u.rect)

/-- The `while (moved.y > 0)` loop of `compactLayout`, with fuel: each
iteration decrements `y` by one, so `y.toNat` steps suffice. -/
def moveUpAux (comp : List Widget) : Nat → Widget → Widget
  | 0, m => m
  | nfuel + 1, m =>
    if m.y > 0 && !collides { m with y := m.y - 1 } comp then
      moveUpAux comp nfuel { m with y := m.y - 1 }
    else m

/-- Move one widget up as far as possible against the already-compacted
widgets. -/
def moveUp (comp : List Widget) (m : Widget) : Widget :=
  moveUpAux comp m.y.toNat m

/-- The fold of `compactLayout` over the sorted widgets, accumulating the
compacted prefix. -/
def compactFold : List Widget → List Widget → List Widget
  | comp, [] => comp
  | comp, wd :: rest => compactFold (comp ++ [moveUp comp wd]) rest

/-- `GridEngine.compactLayout`. -/
def compactLayout (widgets : List Widget) : List Widget :=
  compactFold [] (sortWidgets widgets)

/-- `Object.assign(moved, movedWidget)` after `result.find(...)`: replace
the first widget carrying `mw.id` by `mw`. -/
def applyMoved (mw : Widget) : List Widget → List Widget
  | [] => []
  | u :: l => if u.id == mw.id then mw :: l else u :: applyMoved mw l

/-- One pass of the push-down loop of `resolveCollisions`: the widgets are
visited in order, each update is visible to the collision checks of the
later ones, `acc` is the already-visited prefix. -/
def passAux : List Widget → List Widget → Bool → List Widget × Bool
  | acc, [], changed => (acc, changed)
  | acc, wd :: rest, changed =>
    if wd.locked || wd.noMove then passAux (acc ++ [wd]) rest changed
    else if (getCollidingWidgets wd (acc ++ wd :: rest)).isEmpty then
      passAux (acc ++ [wd]) rest changed
    else if wd.y < getBottomY (getCollidingWidgets wd (acc ++ wd :: rest)) then
      passAux
        (acc ++ [{ wd with y := getBottomY (getCollidingWidgets wd (acc ++ wd :: rest)) }])
        rest true
    else passAux (acc ++ [wd]) rest changed

/-- The `while (hasChanges && iterations < maxIterations)` loop of
`resolveCollisions`: run passes until one reports no change, at most 100. -/
def resolveLoop : Nat → List Widget → List Widget
  | 0, l => l
  | nfuel + 1, l =>
    if (passAux [] l false).2 then resolveLoop nfuel (passAux [] l false).1
    else (passAux [] l false).1

/-- `GridEngine.resolveCollisions`: when no widget carries `mw.id` the copy
is returned untouched (the source returns before the loop); otherwise the
moved geometry is applied and the push-down loop runs. -/
def resolveCollisions (movedWidget : Widget) (widgets : List Widget) : List Widget :=
  if widgets.any (fun u => u.id == movedWidget.id) then
    resolveLoop 100 (applyMoved movedWidget widgets)
  else widgets

/-- `GridEngine.moveWidget`. -/
def moveWidget (widgetId : Nat) (x y : Int) (widgets : List Widget)
    (columns : Int) : Option (List Widget) :=
  match widgets.find? (fun u => u.id == widgetId) with
  | none => none
  | some widget =>
    if widget.locked || widget.noMove then none
    else
      let moved := { widget with x := snapToGrid x, y := snapToGrid y }
      let moved :=
        if isWithinBounds moved.rect columns then moved
        else { moved with x := max 0 (min moved.x (columns - moved.w)),
                          y := max 0 moved.y }
      some (resolveCollisions moved widgets)

/-- `GridEngine.resizeWidget`: `maxH ?? Infinity` is modelled by omitting
the upper clamp when `maxH` is absent. -/
def resizeWidget (widgetId : Nat) (w h : Int) (widgets : List Widget)
    (columns : Int) : Option (List Widget) :=
  match widgets.find? (fun u => u.id == widgetId) with
  | none => none
  | some widget =>
    if widget.locked || widget.noResize then none
    else
      let minW := widget.minW.getD 1
      let minH := widget.minH.getD 1
      let maxW := widget.maxW.getD columns
      let newW := max minW (min maxW (snapToGrid w))
      let newH :=
        match widget.maxH with
        | none => max minH (snapToGrid h)
        | some mH => max minH (min mH (snapToGrid h))
      let resized := { widget with w := newW, h := newH }
      let resized :=
        if isWithinBounds resized.rect columns then resized
        else { resized with x := max 0 (min resized.x (columns - resized.w)) }
      some (resolveCollisions resized widgets)

/-- The 8 resize handle directions of `ResizeEngine.ts`. -/
inductive ResizeHandle
  | se | sw | ne | nw | e | w | s | n
deriving Repr, DecidableEq

/-- `handle.includes('w')` on the handle strings: the west-facing handles. -/
def handleIncludesWest : ResizeHandle → Bool
  | .sw | .nw | .w => true
  | _ => false

/-- `ResizeEngine.updateResize` from the grid-unit deltas on: the per-handle
switch, the min/max clamps, the grid-bounds re-clamp and the floor at zero.
The widget carries the session's start geometry (`session.widget` is the
snapshot taken at `startResize`). -/
def updateResize (widget : Widget) (handle : ResizeHandle)
    (deltaGridW deltaGridH : Int) (columns : Int) : GridRect :=
  let startWidgetX := widget.x
  let startWidgetY := widget.y
  let startWidgetW := widget.w
  let startWidgetH := widget.h
  let raw : Int × Int × Int × Int :=
    match handle with
    | .se => (startWidgetW + deltaGridW, startWidgetH + deltaGridH,
              startWidgetX, startWidgetY)
    | .sw => (startWidgetW - deltaGridW, startWidgetH + deltaGridH,
              startWidgetX + deltaGridW, startWidgetY)
    | .ne => (startWidgetW + deltaGridW, startWidgetH - deltaGridH,
              startWidgetX, startWidgetY + deltaGridH)
    | .nw => (startWidgetW - deltaGridW, startWidgetH - deltaGridH,
              startWidgetX + deltaGridW, startWidgetY + deltaGridH)
    | .e => (startWidgetW + deltaGridW, startWidgetH, startWidgetX, startWidgetY)
    | .w => (startWidgetW - deltaGridW, startWidgetH,
             startWidgetX + deltaGridW, startWidgetY)
    | .s => (startWidgetW, startWidgetH + deltaGridH, startWidgetX, startWidgetY)
    | .n => (startWidgetW, startWidgetH - deltaGridH,
             startWidgetX, startWidgetY + deltaGridH)
  let minW := widget.minW.getD 1
  let minH := widget.minH.getD 1
  let maxW := widget.maxW.getD columns
  let newW := max minW (min maxW raw.1)
  let newH :=
    match widget.maxH with
    | none => max minH raw.2.1
    | some mH => max minH (min mH raw.2.1)
  let newX := raw.2.2.1
  let newY := raw.2.2.2
  let adjusted : Int × Int :=
    if newX + newW > columns then
      if handleIncludesWest handle then (columns - newW, newW)
      else (newX, columns - newX)
    else (newX, newW)
  ⟨max 0 adjusted.1, max 0 newY, adjusted.2, newH⟩

/-- The state of one resize session (`ResizeState` in `ResizeEngine.ts`). -/
structure ResizeSession where
  widgetId : Nat
  widget : Widget
  handle : ResizeHandle
  startWidgetX : Int
  startWidgetY : Int
  startWidgetW : Int
  startWidgetH : Int
  currentX : Int
  currentY : Int
  currentW : Int
  currentH : Int
  isResizing : Bool
deriving Repr, DecidableEq

/-- `result[widgetIndex] = { ...result[widgetIndex], x, y, w, h }`: write the
committed geometry into the first widget carrying the id. -/
def setGeometry (wid : Nat) (r : GridRect) : List Widget → List Widget
  | [] => []
  | u :: l =>
    if u.id == wid then { u with x := r.x, y := r.y, w := r.w, h := r.h } :: l
    else u :: setGeometry wid r l

/-- `ResizeEngine.endResize`, reduced to its state effect: the returned
boolean and the widget collection written through the setter (`none` when
the setter is not called). -/
def endResize (st : Option ResizeSession) (widgets : List Widget) :
    Bool × Option (List Widget) :=
  match st with
  | none => (false, none)
  | some sess =>
    if !sess.isResizing then (false, none)
    else
      let changed := sess.currentW ≠ sess.startWidgetW ∨
        sess.currentH ≠ sess.startWidgetH ∨
        sess.currentX ≠ sess.startWidgetX ∨ sess.currentY ≠ sess.startWidgetY
      if changed then
        match widgets.find? (fun u => u.id == sess.widgetId) with
        | none => (true, none)
        | some u =>
          let updated := { u with x := sess.currentX, y := sess.currentY,
                                  w := sess.currentW, h := sess.currentH }
          let result := setGeometry sess.widgetId
            ⟨sess.currentX, sess.currentY, sess.currentW, sess.currentH⟩ widgets
          (true, some (resolveCollisions updated result))
      else (false, none)

/-- The state of one drag session (`DragState` in `DragEngine.ts`), reduced
to the fields `endDrag` reads. -/
structure DragSession where
  widgetId : Nat
  startWidgetX : Int
  startWidgetY : Int
  currentGridX : Int
  currentGridY : Int
  isDragging : Bool
deriving Repr, DecidableEq

/-- What one `endDrag` call does: its return value, the session it leaves
behind, the collection written through the setter (`none` when the setter
is not called), and the notifications it emits, each with its `moved`
flag. -/
structure EndDragResult where
  returned : Bool
  session : Option DragSession
  committed : Option (List Widget)
  events : List (String × Bool)
deriving Repr, DecidableEq

/-- `DragEngine.endDrag`. -/
def endDrag (st : Option DragSession) (widgets : List Widget) (columns : Int) :
    EndDragResult :=
  match st with
  | none => ⟨false, none, none, []⟩
  | some sess =>
    if !sess.isDragging then ⟨false, some sess, none, []⟩
    else if sess.currentGridX = sess.startWidgetX ∧
        sess.currentGridY = sess.startWidgetY then
      ⟨false, none, none, [("drag:end", false), ("interaction:end", false)]⟩
    else
      match moveWidget sess.widgetId sess.currentGridX sess.currentGridY
          widgets columns with
      | some result =>
        ⟨true, none, some result, [("drag:end", true), ("interaction:end", true)]⟩
      | none => ⟨true, none, none, []⟩

/-- One breakpoint's configuration (`BreakpointConfig` in `src/types`). -/
structure BreakpointConfig where
  width : Int
  columns : Int
  rowHeight : Option Int := none
  layout : Option (List Widget) := none
deriving Repr, DecidableEq

/-- The scan of `getCurrentBreakpoint`: keep the last breakpoint whose
width fits, stop at the first that does not (`break`). -/
def scanBp (v : Int) : List (String × BreakpointConfig) →
    Option (String × BreakpointConfig) → Option (String × BreakpointConfig)
  | [], acc => acc
  | b :: rest, acc => if v ≥ b.2.width then scanBp v rest (some b) else acc

/-- `BreakpointManager.getCurrentBreakpoint` over the sorted breakpoint
entries, taking the viewport width as input. -/
def getCurrentBreakpoint (breakpoints : List (String × BreakpointConfig))
    (viewportWidth : Int) : Option (String × BreakpointConfig) :=
  scanBp viewportWidth breakpoints none

/-- The manager's mutable state: the breakpoint map and the name of the
active breakpoint. -/
structure BreakpointState where
  breakpoints : List (String × BreakpointConfig)
  currentBreakpointName : Option String
deriving Repr, DecidableEq

/-- `this.breakpoints[name]` (object keys are unique). -/
def lookupBp (name : String) (bps : List (String × BreakpointConfig)) :
    Option BreakpointConfig :=
  (bps.find? (fun b => b.1 == name)).map (fun b => b.2)

/-- `BreakpointManager.saveLayoutForBreakpoint`: store the layout for the
named breakpoint when it exists; `JSON.parse(JSON.stringify(layout))` is a
deep copy, which in the pure embedding is the value itself. -/
def saveLayoutForBreakpoint (name : String) (layout : List Widget)
    (bps : List (String × BreakpointConfig)) : List (String × BreakpointConfig) :=
  bps.map (fun b => if b.1 == name then (b.1, { b.2 with layout := some layout }) else b)

/-- `BreakpointManager.switchToBreakpoint`, with `getCurrentLayout()`
supplied as `currentLayout`: the returned boolean, the new manager state
and the `onBreakpointChange` invocation (`none` when the callback is not
called).  The config handed to the callback is the one the save just
updated when the outgoing breakpoint is the target itself (the source
passes the mutated object). -/
def switchToBreakpoint (st : BreakpointState) (name : String) (force : Bool)
    (currentLayout : List Widget) :
    Bool × BreakpointState × Option (String × BreakpointConfig × Option String) :=
  match lookupBp name st.breakpoints with
  | none => (false, st, none)
  | some config =>
    if !force && st.currentBreakpointName == some name then (false, st, none)
    else
      let oldName := st.currentBreakpointName
      let bps2 :=
        match oldName with
        | some o => saveLayoutForBreakpoint o currentLayout st.breakpoints
        | none => st.breakpoints
      let config2 :=
        if oldName == some name then { config with layout := some currentLayout }
        else config
      (true, ⟨bps2, some name⟩, some (name, config2, oldName))

/-- Handles whose delta grows the width to the east (their name holds
an `e`). -/
def ResizeHandle.eastFacing : ResizeHandle → Bool
  | .se | .ne | .e => true
  | _ => false

/-- Handles whose delta resizes from the left edge (their name holds
a `w`). -/
def ResizeHandle.westFacing : ResizeHandle → Bool
  | .sw | .nw | .w => true
  | _ => false

/-- Handles whose delta grows the height to the south. -/
def ResizeHandle.southFacing : ResizeHandle → Bool
  | .se | .sw | .s => true
  | _ => false

/-- Handles whose delta resizes from the top edge. -/
def ResizeHandle.northFacing : ResizeHandle → Bool
  | .ne | .nw | .n => true
  | _ => false

/-- The resize step as the claim words it: east/south handles add the grid
delta to `w`/`h`; west/north handles subtract it from `w`/`h` while adding
it to `x`/`y`; corner handles apply both axes; then `w` is clamped into
`[minW ?? 1, maxW ?? columns]` and `h` into `[minH ?? 1, maxH ?? infinity]`;
then an overflow `x + w > columns` adjusts `x` for west-facing handles and
`w` otherwise; then `x` and `y` are clamped to be nonnegative. -/
def updateResizeSpec (widget : Widget) (handle : ResizeHandle)
    (dW dH : Int) (columns : Int) : GridRect :=
  let w1 := widget.w + (if handle.eastFacing then dW else 0) +
    (if handle.westFacing then -dW else 0)
  let x1 := widget.x + (if handle.westFacing then dW else 0)
  let h1 := widget.h + (if handle.southFacing then dH else 0) +
    (if handle.northFacing then -dH else 0)
  let y1 := widget.y + (if handle.northFacing then dH else 0)
  let w2 := max (widget.minW.getD 1) (min (widget.maxW.getD columns) w1)
  let h2 :=
    match widget.maxH with
    | none => max (widget.minH.getD 1) h1
    | some mH => max (widget.minH.getD 1) (min mH h1)
  let adjusted : Int × Int :=
    if x1 + w2 > columns then
      if handle.westFacing then (columns - w2, w2) else (x1, columns - x1)
    else (x1, w2)
  ⟨max 0 adjusted.1, max 0 y1, adjusted.2, h2⟩

/-- A widget with `minW = 2`, `maxW = 6` for the concrete `se` scenario. -/
def seWidget : Widget :=
  { id := 1, x := 2, y := 0, w := 3, h := 2, minW := some 2, maxW := some 6 }

/-- The resize session after dragging the `se` handle of `seWidget` far
enough to request `w = 10` (grid delta `+7`): `updateResize` has clamped
the proposal to width 6. -/
def seSession : ResizeSession :=
  { widgetId := 1, widget := seWidget, handle := .se,
    startWidgetX := 2, startWidgetY := 0, startWidgetW := 3, startWidgetH := 2,
    currentX := 2, currentY := 0, currentW := 6, currentH := 2,
    isResizing := true }

/-- A concrete manager state for the C9 witness: `sm` active, `md`
configured. -/
def bpStateC9 : BreakpointState :=
  ⟨[("sm", ⟨576, 4, none, none⟩), ("md", ⟨768, 8, none, none⟩)], some "sm"⟩

/-- A concrete one-widget layout for the C9 witness. -/
def layoutC9 : List Widget :=
  [⟨7, 0, 0, 2, 2, none, none, none, none, false, false, false⟩]

/-- The example breakpoints of the claim: `{sm: 576, md: 768, lg: 992}`,
in ascending width order as the manager keeps them. -/
def bpsC8 : List (String × BreakpointConfig) :=
  [("sm", ⟨576, 4, none, none⟩), ("md", ⟨768, 8, none, none⟩),
   ("lg", ⟨992, 12, none, none⟩)]

/-- What one push can do to a widget: only `y` changes, it never
decreases, and it does not change at all for `locked`/`noMove` widgets. -/
def pushRel (a b : Widget) : Prop :=
  b = { a with y := b.y } ∧ a.y ≤ b.y ∧
    ((a.locked = true ∨ a.noMove = true) → b.y = a.y)

/-- What `resolveCollisions` can do to a widget whose id is not the moved
one: only `y` changes, upward never, and not at all when `locked` or
`noMove`. -/
def resolveRel (mw : Widget) (a b : Widget) : Prop :=
  a.id ≠ mw.id →
    (b = { a with y := b.y } ∧ a.y ≤ b.y ∧
      ((a.locked = true ∨ a.noMove = true) → b.y = a.y))

/-- Three 4-wide, 3-tall widgets completely filling row 0 (rows 0-2) of a
12-column grid. -/
def rowFullC2 : List Widget :=
  [⟨1, 0, 0, 4, 3, none, none, none, none, false, false, false⟩,
   ⟨2, 4, 0, 4, 3, none, none, none, none, false, false, false⟩,
   ⟨3, 8, 0, 4, 3, none, none, none, none, false, false, false⟩]

/-- The C4 counterexample collection: a tall blocker in column 0, a widget
pinned beneath it, and a widget in column 1 that compacts up past both. -/
def layoutC4 : List Widget :=
  [⟨1, 0, 0, 1, 5, none, none, none, none, false, false, false⟩,
   ⟨2, 0, 5, 1, 1, none, none, none, none, false, false, false⟩,
   ⟨3, 1, 6, 1, 1, none, none, none, none, false, false, false⟩]

/-- The `(y, x)` key-equality test used for the stability argument. -/
def keyEq (ky kx : Int) (w : Widget) : Bool := decide (w.y = ky ∧ w.x = kx)

/-! ## Lemmas and claim theorems -/

/-- Claim C3: `checkCollision` is symmetric, and rectangles that merely
touch on an edge (one's far edge equals the other's near edge, on either
axis) do not collide. -/
theorem claim_C3 (a b : GridRect) :
    checkCollision a b = checkCollision b a ∧
    ((a.x + a.w = b.x ∨ b.x + b.w = a.x ∨ a.y + a.h = b.y ∨ b.y + b.h = a.y) →
      checkCollision a b = false) := by
  constructor
  · simp only [checkCollision, decide_eq_decide]
    tauto
  · intro htouch
    simp only [checkCollision, decide_eq_false_iff_not, not_not]
    rcases htouch with h | h | h | h
    · exact Or.inl (le_of_eq h)
    · exact Or.inr (Or.inl (le_of_eq h))
    · exact Or.inr (Or.inr (Or.inl (le_of_eq h)))
    · exact Or.inr (Or.inr (Or.inr (le_of_eq h)))

/-- Witness for C3 at two concrete rectangles touching on a vertical edge. -/
theorem claim_C3_witness :
    checkCollision ⟨0, 0, 2, 2⟩ ⟨2, 0, 2, 2⟩ = checkCollision ⟨2, 0, 2, 2⟩ ⟨0, 0, 2, 2⟩ ∧
    checkCollision ⟨0, 0, 2, 2⟩ ⟨2, 0, 2, 2⟩ = false := by
  have h := claim_C3 ⟨0, 0, 2, 2⟩ ⟨2, 0, 2, 2⟩
  exact ⟨h.1, h.2 (Or.inl (by decide))⟩

/-- Claim C7: `endDrag` returns `false` when no session is active; when the
proposed grid position equals the session-start position it returns
`false`, emits the end notifications with `moved = false`, discards the
session and never calls the state setter. -/
theorem claim_C7 :
    (∀ widgets columns, endDrag none widgets columns =
      ⟨false, none, none, []⟩) ∧
    (∀ sess widgets columns, sess.isDragging = true →
      sess.currentGridX = sess.startWidgetX →
      sess.currentGridY = sess.startWidgetY →
      endDrag (some sess) widgets columns =
        ⟨false, none, none, [("drag:end", false), ("interaction:end", false)]⟩) := by
  refine ⟨fun widgets columns => rfl, fun sess widgets columns hd hx hy => ?_⟩
  simp [endDrag, hd, hx, hy]

/-- Witness for C7: a concrete zero-movement session over a one-widget
collection. -/
theorem claim_C7_witness :
    endDrag (some ⟨1, 2, 3, 2, 3, true⟩) [⟨1, 2, 3, 4, 3, none, none, none, none, false, false, false⟩] 12 =
      ⟨false, none, none, [("drag:end", false), ("interaction:end", false)]⟩ ∧
    endDrag none [] 12 = ⟨false, none, none, []⟩ :=
  ⟨claim_C7.2 ⟨1, 2, 3, 2, 3, true⟩ _ 12 rfl rfl rfl, claim_C7.1 [] 12⟩

/-- Claim C6: `updateResize` maps the grid delta per handle direction, then
clamps `w`/`h` to the widget's bounds, then re-clamps against the grid
width, then floors `x`/`y` at zero; and the `se` session on a widget with
`minW = 2`, `maxW = 6` requesting `w = 10` proposes and commits width 6. -/
theorem claim_C6 :
    (∀ widget handle dW dH columns,
      updateResize widget handle dW dH columns =
        updateResizeSpec widget handle dW dH columns) ∧
    updateResize seWidget .se 7 0 12 = ⟨2, 0, 6, 2⟩ ∧
    endResize (some seSession) [seWidget] =
      (true, some [{ seWidget with w := 6 }]) := by
  refine ⟨fun widget handle dW dH columns => ?_, by decide, by decide⟩
  cases handle <;>
    simp [updateResize, updateResizeSpec, handleIncludesWest,
      ResizeHandle.eastFacing, ResizeHandle.westFacing,
      ResizeHandle.southFacing, ResizeHandle.northFacing, sub_eq_add_neg]

/-- Unfolding `lookupBp` over a cons cell. -/
theorem lookupBp_cons (nm : String) (b : String × BreakpointConfig)
    (l : List (String × BreakpointConfig)) :
    lookupBp nm (b :: l) = if b.1 = nm then some b.2 else lookupBp nm l := by
  unfold lookupBp
  by_cases h : b.1 = nm
  · rw [List.find?_cons_of_pos _ (by simpa using h)]
    simp [h]
  · rw [List.find?_cons_of_neg _ (by simpa using h)]
    simp [h]

/-- Unfolding `saveLayoutForBreakpoint` over a cons cell. -/
theorem saveLayout_cons (o : String) (layout : List Widget)
    (b : String × BreakpointConfig) (l : List (String × BreakpointConfig)) :
    saveLayoutForBreakpoint o layout (b :: l) =
      (if b.1 = o then (b.1, { b.2 with layout := some layout }) else b) ::
        saveLayoutForBreakpoint o layout l := by
  by_cases h : b.1 = o <;> simp [saveLayoutForBreakpoint, h]

/-- Looking a breakpoint up after a save: the saved name now carries the
stored layout, every other name is untouched. -/
theorem lookupBp_saveLayout (nm o : String) (layout : List Widget)
    (bps : List (String × BreakpointConfig)) :
    lookupBp nm (saveLayoutForBreakpoint o layout bps) =
      if nm = o then
        (lookupBp nm bps).map (fun c => { c with layout := some layout })
      else lookupBp nm bps := by
  induction bps with
  | nil => simp [lookupBp, saveLayoutForBreakpoint]
  | cons b rest ih =>
    rw [saveLayout_cons]
    by_cases h1 : b.1 = o
    · rw [if_pos h1, lookupBp_cons, lookupBp_cons]
      by_cases h2 : b.1 = nm
      · have hno : nm = o := h2.symm.trans h1
        simp [h2, hno]
      · have hno : ¬ nm = o := fun he => h2 (h1.trans he.symm)
        simp [h2, hno, ih, hno]
    · rw [if_neg h1, lookupBp_cons, lookupBp_cons]
      by_cases h2 : b.1 = nm
      · have hno : ¬ nm = o := fun he => h1 (h2.trans he)
        simp [h2, hno]
      · simp [h2, ih]

/-- Claim C9: `switchToBreakpoint` returns `false` with no state change and
no callback for an unknown name, or for the active name without `force`;
on a real switch it stores the caller-supplied layout into the outgoing
breakpoint, activates the new name, invokes the callback with
`(name, config, previousName)` and returns `true`. -/
theorem claim_C9 (st : BreakpointState) (name : String) (force : Bool)
    (layout : List Widget) :
    (lookupBp name st.breakpoints = none →
      switchToBreakpoint st name force layout = (false, st, none)) ∧
    (st.currentBreakpointName = some name → force = false →
      switchToBreakpoint st name force layout = (false, st, none)) ∧
    (∀ config, lookupBp name st.breakpoints = some config →
      (force = true ∨ st.currentBreakpointName ≠ some name) →
      (switchToBreakpoint st name force layout).1 = true ∧
      (switchToBreakpoint st name force layout).2.1.currentBreakpointName =
        some name ∧
      (∃ cfg2, (switchToBreakpoint st name force layout).2.2 =
        some (name, cfg2, st.currentBreakpointName)) ∧
      (∀ o ocfg, st.currentBreakpointName = some o →
        lookupBp o st.breakpoints = some ocfg →
        lookupBp o (switchToBreakpoint st name force layout).2.1.breakpoints =
          some { ocfg with layout := some layout })) := by
  refine ⟨fun hnone => ?_, fun hcur hforce => ?_, fun config hcfg hreal => ?_⟩
  · simp [switchToBreakpoint, hnone]
  · cases hlook : lookupBp name st.breakpoints with
    | none => simp [switchToBreakpoint, hlook]
    | some c => simp [switchToBreakpoint, hlook, hcur, hforce]
  · have hcond : (!force && st.currentBreakpointName == some name) = false := by
      rcases hreal with hf | hne
      · simp [hf]
      · simp only [Bool.and_eq_false_iff]
        right
        simpa [beq_iff_eq] using hne
    have hres : switchToBreakpoint st name force layout =
        (true,
         ⟨(match st.currentBreakpointName with
           | some o => saveLayoutForBreakpoint o layout st.breakpoints
           | none => st.breakpoints), some name⟩,
         some (name,
           (if st.currentBreakpointName == some name then
              { config with layout := some layout }
            else config), st.currentBreakpointName)) := by
      simp [switchToBreakpoint, hcfg, hcond]
    refine ⟨by rw [hres], by rw [hres], ⟨_, by rw [hres]⟩, ?_⟩
    intro o ocfg hold holdcfg
    rw [hres, hold]
    simp [lookupBp_saveLayout, holdcfg]

/-- Witness for C9: a real switch from `sm` to `md`. -/
theorem claim_C9_witness :
    (switchToBreakpoint bpStateC9 "md" false layoutC9).1 = true ∧
    (switchToBreakpoint bpStateC9 "md" false layoutC9).2.1.currentBreakpointName =
      some "md" ∧
    (∃ cfg2, (switchToBreakpoint bpStateC9 "md" false layoutC9).2.2 =
      some ("md", cfg2, bpStateC9.currentBreakpointName)) ∧
    (∀ o ocfg, bpStateC9.currentBreakpointName = some o →
      lookupBp o bpStateC9.breakpoints = some ocfg →
      lookupBp o (switchToBreakpoint bpStateC9 "md" false layoutC9).2.1.breakpoints =
        some { ocfg with layout := some layoutC9 }) :=
  (claim_C9 bpStateC9 "md" false layoutC9).2.2 ⟨768, 8, none, none⟩ (by decide)
    (Or.inr (by decide))

/-- Once the scan holds a candidate it never returns `none`. -/
theorem scanBp_some_ne_none (v : Int) :
    ∀ (bps : List (String × BreakpointConfig)) (a : String × BreakpointConfig),
      scanBp v bps (some a) ≠ none := by
  intro bps
  induction bps with
  | nil => intro a h; exact Option.some_ne_none a h
  | cons b rest ih =>
    intro a
    unfold scanBp
    by_cases hb : v ≥ b.2.width
    · rw [if_pos hb]; exact ih b
    · rw [if_neg hb]; exact Option.some_ne_none a

/-- The invariant of the `getCurrentBreakpoint` scan: over a
width-ascending tail whose widths all dominate the candidate's, the scan
returns the last entry whose width fits the viewport. -/
theorem scanBp_inv (v : Int) :
    ∀ (bps : List (String × BreakpointConfig)) (a r : String × BreakpointConfig),
      List.Pairwise (fun p q => p.2.width ≤ q.2.width) bps →
      a.2.width ≤ v → (∀ u ∈ bps, a.2.width ≤ u.2.width) →
      scanBp v bps (some a) = some r →
      (r = a ∨ r ∈ bps) ∧ r.2.width ≤ v ∧ a.2.width ≤ r.2.width ∧
        ∀ u ∈ bps, u.2.width ≤ v → u.2.width ≤ r.2.width := by
  intro bps
  induction bps with
  | nil =>
    intro a r _ ha _ h
    obtain rfl : a = r := by simpa [scanBp] using h
    exact ⟨Or.inl rfl, ha, le_refl _, by simp⟩
  | cons b rest ih =>
    intro a r hsorted ha hdom h
    rw [List.pairwise_cons] at hsorted
    unfold scanBp at h
    by_cases hb : v ≥ b.2.width
    · rw [if_pos hb] at h
      obtain ⟨hmem, hrv, hbr, hmax⟩ :=
        ih b r hsorted.2 hb (fun u hu => hsorted.1 u hu) h
      refine ⟨?_, hrv, le_trans (hdom b (by simp)) hbr, ?_⟩
      · rcases hmem with rfl | hmem
        · exact Or.inr (by simp)
        · exact Or.inr (by simp [hmem])
      · intro u hu huv
        rcases List.mem_cons.mp hu with rfl | hu
        · exact hbr
        · exact hmax u hu huv
    · rw [if_neg hb] at h
      obtain rfl : a = r := by simpa using h
      refine ⟨Or.inl rfl, ha, le_refl _, ?_⟩
      intro u hu huv
      rcases List.mem_cons.mp hu with rfl | hu
      · exact absurd huv (by omega)
      · exact absurd (le_trans (hsorted.1 u hu) huv) (by omega)

/-- Claim C8: over width-ascending breakpoints, `getCurrentBreakpoint`
returns the breakpoint with the largest width not exceeding the viewport,
and `none` exactly when the viewport is narrower than every breakpoint;
with `{sm: 576, md: 768, lg: 992}`, viewport 800 matches `md`, 400 matches
none and 1000 matches `lg`. -/
theorem claim_C8 (bps : List (String × BreakpointConfig)) (v : Int)
    (hsorted : List.Pairwise (fun p q => p.2.width ≤ q.2.width) bps) :
    (getCurrentBreakpoint bps v = none ↔ ∀ b ∈ bps, v < b.2.width) ∧
    (∀ r, getCurrentBreakpoint bps v = some r →
      r ∈ bps ∧ r.2.width ≤ v ∧
      ∀ u ∈ bps, u.2.width ≤ v → u.2.width ≤ r.2.width) ∧
    getCurrentBreakpoint bpsC8 800 = some ("md", ⟨768, 8, none, none⟩) ∧
    getCurrentBreakpoint bpsC8 400 = none ∧
    getCurrentBreakpoint bpsC8 1000 = some ("lg", ⟨992, 12, none, none⟩) := by
  refine ⟨?_, ?_, by decide, by decide, by decide⟩
  · cases bps with
    | nil => simp [getCurrentBreakpoint, scanBp]
    | cons b rest =>
      rw [List.pairwise_cons] at hsorted
      unfold getCurrentBreakpoint scanBp
      by_cases hb : v ≥ b.2.width
      · rw [if_pos hb]
        constructor
        · intro h
          exact absurd h (scanBp_some_ne_none v rest b)
        · intro h
          exact absurd (h b (by simp)) (by omega)
      · rw [if_neg hb]
        simp only [true_iff]
        intro u hu
        rcases List.mem_cons.mp hu with rfl | hu
        · omega
        · exact lt_of_lt_of_le (by omega) (hsorted.1 u hu)
  · intro r h
    cases bps with
    | nil => simp [getCurrentBreakpoint, scanBp] at h
    | cons b rest =>
      rw [List.pairwise_cons] at hsorted
      unfold getCurrentBreakpoint scanBp at h
      by_cases hb : v ≥ b.2.width
      · rw [if_pos hb] at h
        obtain ⟨hmem, hrv, hbr, hmax⟩ :=
          scanBp_inv v rest b r hsorted.2 hb (fun u hu => hsorted.1 u hu) h
        refine ⟨?_, hrv, ?_⟩
        · rcases hmem with rfl | hmem
          · simp
          · simp [hmem]
        · intro u hu huv
          rcases List.mem_cons.mp hu with rfl | hu
          · exact hbr
          · exact hmax u hu huv
      · rw [if_neg hb] at h
        exact absurd h (by simp)

/-- Witness for C8 at the example breakpoints and viewport 800. -/
theorem claim_C8_witness :
    ((getCurrentBreakpoint bpsC8 800 = none ↔ ∀ b ∈ bpsC8, 800 < b.2.width) ∧
    (∀ r, getCurrentBreakpoint bpsC8 800 = some r →
      r ∈ bpsC8 ∧ r.2.width ≤ 800 ∧
      ∀ u ∈ bpsC8, u.2.width ≤ 800 → u.2.width ≤ r.2.width) ∧
    getCurrentBreakpoint bpsC8 800 = some ("md", ⟨768, 8, none, none⟩) ∧
    getCurrentBreakpoint bpsC8 400 = none ∧
    getCurrentBreakpoint bpsC8 1000 = some ("lg", ⟨992, 12, none, none⟩)) :=
  claim_C8 bpsC8 800 (by decide)

theorem pushRel_refl (a : Widget) : pushRel a a :=
  ⟨rfl, le_refl _, fun _ => rfl⟩

theorem pushRel_trans {a b c : Widget} (h1 : pushRel a b) (h2 : pushRel b c) :
    pushRel a c := by
  obtain ⟨hb, hyab, hlab⟩ := h1
  obtain ⟨hc, hybc, hlbc⟩ := h2
  refine ⟨?_, le_trans hyab hybc, ?_⟩
  · rw [hc, hb]
  · intro hl
    have hby := hlab hl
    have hlb : b.locked = true ∨ b.noMove = true := by
      rcases hl with hcase | hcase
      · exact Or.inl (by rw [hb]; exact hcase)
      · exact Or.inr (by rw [hb]; exact hcase)
    exact (hlbc hlb).trans hby

/-- Composing two element-wise relations along a middle list. -/
theorem forall₂_trans_gen {α β γ : Type} {r : α → β → Prop} {q : β → γ → Prop}
    {s : α → γ → Prop} (hcomp : ∀ a b c, r a b → q b c → s a c) :
    ∀ {l1 : List α} {l2 : List β} {l3 : List γ},
      List.Forall₂ r l1 l2 → List.Forall₂ q l2 l3 → List.Forall₂ s l1 l3 := by
  intro l1 l2 l3 h12
  induction h12 generalizing l3 with
  | nil => intro h23; cases h23; exact .nil
  | cons hab _ ih =>
    intro h23
    cases h23 with
    | cons hbc h' => exact .cons (hcomp _ _ _ hab hbc) (ih h')

/-- A pass of the push-down loop maps the visited widgets element-wise by
`pushRel`, appended to the untouched prefix. -/
theorem passAux_spec :
    ∀ (rest acc : List Widget) (changed : Bool),
      ∃ rest', (passAux acc rest changed).1 = acc ++ rest' ∧
        List.Forall₂ pushRel rest rest' := by
  intro rest
  induction rest with
  | nil => exact fun acc changed => ⟨[], by simp [passAux], List.Forall₂.nil⟩
  | cons wd rest ih =>
    intro acc changed
    unfold passAux
    by_cases h1 : (wd.locked || wd.noMove) = true
    · rw [if_pos h1]
      obtain ⟨rest', hr, hf⟩ := ih (acc ++ [wd]) changed
      exact ⟨wd :: rest', by rw [hr]; simp, List.Forall₂.cons (pushRel_refl wd) hf⟩
    · rw [if_neg h1]
      by_cases h2 : (getCollidingWidgets wd (acc ++ wd :: rest)).isEmpty = true
      · rw [if_pos h2]
        obtain ⟨rest', hr, hf⟩ := ih (acc ++ [wd]) changed
        exact ⟨wd :: rest', by rw [hr]; simp, List.Forall₂.cons (pushRel_refl wd) hf⟩
      · rw [if_neg h2]
        by_cases h3 : wd.y < getBottomY (getCollidingWidgets wd (acc ++ wd :: rest))
        · rw [if_pos h3]
          obtain ⟨rest', hr, hf⟩ :=
            ih (acc ++ [{ wd with y := getBottomY (getCollidingWidgets wd (acc ++ wd :: rest)) }]) true
          refine ⟨{ wd with y := getBottomY (getCollidingWidgets wd (acc ++ wd :: rest)) } :: rest',
            by rw [hr]; simp, List.Forall₂.cons ⟨rfl, le_of_lt h3, ?_⟩ hf⟩
          intro hl
          rcases hl with hcase | hcase <;> simp [hcase] at h1
        · rw [if_neg h3]
          obtain ⟨rest', hr, hf⟩ := ih (acc ++ [wd]) changed
          exact ⟨wd :: rest', by rw [hr]; simp, List.Forall₂.cons (pushRel_refl wd) hf⟩

/-- The whole push-down loop maps the collection element-wise by
`pushRel`. -/
theorem resolveLoop_rel : ∀ (n : Nat) (l : List Widget),
    List.Forall₂ pushRel l (resolveLoop n l) := by
  intro n
  induction n with
  | zero =>
    intro l
    exact List.forall₂_same.mpr (fun a _ => pushRel_refl a)
  | succ n ih =>
    intro l
    obtain ⟨rest', hr, hf⟩ := passAux_spec l [] false
    have h1 : List.Forall₂ pushRel l (passAux [] l false).1 := by
      rw [hr]; simpa using hf
    unfold resolveLoop
    by_cases hch : (passAux [] l false).2 = true
    · rw [if_pos hch]
      exact @forall₂_trans_gen Widget Widget Widget pushRel pushRel pushRel
        (fun a b c hab hbc => pushRel_trans hab hbc) l (passAux [] l false).1
        (resolveLoop n (passAux [] l false).1) h1 (ih _)
    · rw [if_neg hch]
      exact h1

/-- `applyMoved` replaces the first widget carrying the moved id and leaves
everything else in place. -/
theorem applyMoved_rel (mw : Widget) :
    ∀ l, List.Forall₂ (fun a b => b = a ∨ (a.id = mw.id ∧ b = mw)) l (applyMoved mw l) := by
  intro l
  induction l with
  | nil => exact .nil
  | cons u l ih =>
    unfold applyMoved
    by_cases h : (u.id == mw.id) = true
    · rw [if_pos h]
      exact .cons (Or.inr ⟨by simpa using h, rfl⟩)
        (List.forall₂_same.mpr (fun a _ => Or.inl rfl))
    · rw [if_neg h]
      exact .cons (Or.inl rfl) ih

theorem resolveCollisions_rel (mw : Widget) (ws : List Widget) :
    List.Forall₂ (resolveRel mw) ws (resolveCollisions mw ws) := by
  unfold resolveCollisions
  by_cases h : (ws.any fun u => u.id == mw.id) = true
  · rw [if_pos h]
    refine forall₂_trans_gen ?_ (applyMoved_rel mw ws) (resolveLoop_rel 100 _)
    intro a b c hab hbc hid
    rcases hab with rfl | ⟨haid, _⟩
    · exact hbc
    · exact absurd haid hid
  · rw [if_neg h]
    exact List.forall₂_same.mpr (fun a _ => fun _ => ⟨rfl, le_refl _, fun _ => rfl⟩)

/-- Claim C10: `resolveCollisions` maps the collection element-wise (the
embedding is pure, so the input collection itself is untouched), and every
widget whose id differs from the moved one keeps its `id`, `x`, `w` and
`h` and is only ever pushed downward (`y` never decreases). -/
theorem claim_C10 (mw : Widget) (ws : List Widget) :
    List.Forall₂ (fun (a b : Widget) => a.id ≠ mw.id →
      (b.id = a.id ∧ b.x = a.x ∧ b.w = a.w ∧ b.h = a.h ∧ a.y ≤ b.y))
      ws (resolveCollisions mw ws) := by
  refine List.Forall₂.imp ?_ (resolveCollisions_rel mw ws)
  intro a b hr hid
  obtain ⟨hb, hy, _⟩ := hr hid
  exact ⟨by rw [hb], by rw [hb], by rw [hb], by rw [hb], hy⟩

/-- Witness for C10: a widget moved onto another pushes it straight down,
everything else about it unchanged. -/
theorem claim_C10_witness :
    List.Forall₂ (fun (a b : Widget) => a.id ≠ (1 : Nat) →
      (b.id = a.id ∧ b.x = a.x ∧ b.w = a.w ∧ b.h = a.h ∧ a.y ≤ b.y))
      [⟨1, 0, 2, 2, 2, none, none, none, none, false, false, false⟩,
       ⟨2, 0, 0, 2, 2, none, none, none, none, false, false, false⟩]
      (resolveCollisions ⟨1, 0, 0, 2, 2, none, none, none, none, false, false, false⟩
        [⟨1, 0, 2, 2, 2, none, none, none, none, false, false, false⟩,
         ⟨2, 0, 0, 2, 2, none, none, none, none, false, false, false⟩]) :=
  claim_C10 ⟨1, 0, 0, 2, 2, none, none, none, none, false, false, false⟩
    [⟨1, 0, 2, 2, 2, none, none, none, none, false, false, false⟩,
     ⟨2, 0, 0, 2, 2, none, none, none, none, false, false, false⟩]

/-- Counterexample to C1 as stated: when the moved widget itself is locked,
`resolveCollisions` still applies its new geometry (`Object.assign` runs
before the flag check), so the returned collection holds a `locked` widget
whose `y` differs from its input `y`. -/
theorem claim_C1_counterexample :
    resolveCollisions ⟨1, 0, 5, 1, 1, none, none, none, none, true, false, false⟩
        [⟨1, 0, 0, 1, 1, none, none, none, none, true, false, false⟩] =
      [⟨1, 0, 5, 1, 1, none, none, none, none, true, false, false⟩] ∧
    (⟨1, 0, 5, 1, 1, none, none, none, none, true, false, false⟩ : Widget).locked = true ∧
    (⟨1, 0, 5, 1, 1, none, none, none, none, true, false, false⟩ : Widget).y ≠
      (⟨1, 0, 0, 1, 1, none, none, none, none, true, false, false⟩ : Widget).y := by
  refine ⟨by decide, rfl, by decide⟩

/-- Claim C1 as amended: every widget other than the one carrying the moved
id keeps its `locked`/`noMove` flags, and when one of those flags is set its
`y` is exactly its input `y` (locked/noMove widgets are never pushed). -/
theorem claim_C1_amended (mw : Widget) (ws : List Widget) :
    List.Forall₂ (fun (a b : Widget) => a.id ≠ mw.id →
      (b.locked = a.locked ∧ b.noMove = a.noMove ∧
        ((a.locked = true ∨ a.noMove = true) → b.y = a.y)))
      ws (resolveCollisions mw ws) := by
  refine List.Forall₂.imp ?_ (resolveCollisions_rel mw ws)
  intro a b hr hid
  obtain ⟨hb, _, hl⟩ := hr hid
  exact ⟨by rw [hb], by rw [hb], hl⟩

/-- Witness for C1: a locked bystander under a collision-provoking move
keeps its `y`. -/
theorem claim_C1_witness :
    List.Forall₂ (fun (a b : Widget) => a.id ≠ (1 : Nat) →
      (b.locked = a.locked ∧ b.noMove = a.noMove ∧
        ((a.locked = true ∨ a.noMove = true) → b.y = a.y)))
      [⟨1, 0, 2, 2, 2, none, none, none, none, false, false, false⟩,
       ⟨2, 0, 0, 2, 2, none, none, none, none, true, false, false⟩]
      (resolveCollisions ⟨1, 0, 0, 2, 2, none, none, none, none, false, false, false⟩
        [⟨1, 0, 2, 2, 2, none, none, none, none, false, false, false⟩,
         ⟨2, 0, 0, 2, 2, none, none, none, none, true, false, false⟩]) :=
  claim_C1_amended ⟨1, 0, 0, 2, 2, none, none, none, none, false, false, false⟩
    [⟨1, 0, 2, 2, 2, none, none, none, none, false, false, false⟩,
     ⟨2, 0, 0, 2, 2, none, none, none, none, true, false, false⟩]

/-- Every element on the right of a `Forall₂` has a related partner on the
left. -/
theorem forall₂_mem_right {α β : Type} {r : α → β → Prop} :
    ∀ {l : List α} {o : List β}, List.Forall₂ r l o → ∀ u ∈ o, ∃ a ∈ l, r a u := by
  intro l o h
  induction h with
  | nil => intro u hu; simp at hu
  | cons hab _ ih =>
    intro u hu
    rcases List.mem_cons.mp hu with rfl | hu
    · exact ⟨_, by simp, hab⟩
    · obtain ⟨a, ha, hr⟩ := ih u hu
      exact ⟨a, by simp [ha], hr⟩

/-- Splitting a `Forall₂` along an append-cons decomposition of the left
list. -/
theorem forall₂_append_cons_split {r : Widget → Widget → Prop} :
    ∀ {l1 : List Widget} {b : Widget} {l2 out : List Widget},
      List.Forall₂ r (l1 ++ b :: l2) out →
      ∃ o1 t o2, out = o1 ++ t :: o2 ∧ List.Forall₂ r l1 o1 ∧ r b t ∧
        List.Forall₂ r l2 o2 := by
  intro l1
  induction l1 with
  | nil =>
    intro b l2 out h
    cases h with
    | cons hbt h' => exact ⟨[], _, _, rfl, .nil, hbt, h'⟩
  | cons a l1 ih =>
    intro b l2 out h
    cases h with
    | cons hab h' =>
      obtain ⟨o1, t, o2, rfl, hf, hbt, hf2⟩ := ih h'
      exact ⟨_ :: o1, t, o2, rfl, .cons hab hf, hbt, hf2⟩

/-- `find?` over a list whose prefix all fails the test and whose middle
element passes it. -/
theorem find?_append_cons {p : Widget → Bool} :
    ∀ (o1 : List Widget) (t : Widget) (o2 : List Widget),
      (∀ u ∈ o1, p u = false) → p t = true →
      (o1 ++ t :: o2).find? p = some t := by
  intro o1
  induction o1 with
  | nil =>
    intro t o2 _ hp
    simpa using List.find?_cons_of_pos _ hp
  | cons u o1 ih =>
    intro t o2 hno hp
    rw [List.cons_append, List.find?_cons_of_neg _ (by simp [hno u (by simp)])]
    exact ih t o2 (fun v hv => hno v (by simp [hv])) hp

/-- `applyMoved` in terms of the position of the first widget carrying the
moved id. -/
theorem applyMoved_decomp (mw : Widget) :
    ∀ (ws : List Widget), (ws.any fun u => u.id == mw.id) = true →
      ∃ l1 w0 l2, ws = l1 ++ w0 :: l2 ∧ (∀ u ∈ l1, u.id ≠ mw.id) ∧
        w0.id = mw.id ∧ applyMoved mw ws = l1 ++ mw :: l2 := by
  intro ws
  induction ws with
  | nil => intro h; simp at h
  | cons u l ih =>
    intro h
    by_cases hu : (u.id == mw.id) = true
    · refine ⟨[], u, l, rfl, by simp, by simpa using hu, ?_⟩
      unfold applyMoved
      rw [if_pos hu]
      simp
    · have h' : (l.any fun v => v.id == mw.id) = true := by
        simpa [List.any_cons, hu] using h
      obtain ⟨l1, w0, l2, he, hl1, hw0, ha⟩ := ih h'
      refine ⟨u :: l1, w0, l2, by rw [he]; rfl, ?_, hw0, ?_⟩
      · intro v hv
        rcases List.mem_cons.mp hv with rfl | hv
        · simpa using hu
        · exact hl1 v hv
      · unfold applyMoved
        rw [if_neg hu, ha]
        rfl

/-- In `resolveCollisions`' output, the first widget carrying the moved id
is the moved widget itself, possibly pushed down: same `id`, `x`, `w`,
`h`, and a `y` no smaller than the applied one. -/
theorem resolveCollisions_target (mw : Widget) (ws : List Widget)
    (h : (ws.any fun u => u.id == mw.id) = true) :
    ∃ t, (resolveCollisions mw ws).find? (fun u => u.id == mw.id) = some t ∧
      t = { mw with y := t.y } ∧ mw.y ≤ t.y := by
  obtain ⟨l1, w0, l2, hws, hl1, hw0, ha⟩ := applyMoved_decomp mw ws h
  unfold resolveCollisions
  rw [if_pos h, ha]
  have hrel := resolveLoop_rel 100 (l1 ++ mw :: l2)
  obtain ⟨o1, tt, o2, hout, hf1, hbt, hf2⟩ := forall₂_append_cons_split hrel
  rw [hout]
  refine ⟨tt, ?_, hbt.1, hbt.2.1⟩
  apply find?_append_cons
  · intro u hu
    obtain ⟨a, haa, har⟩ := forall₂_mem_right hf1 u hu
    have hid : u.id = a.id := by rw [har.1]
    have hne : a.id ≠ mw.id := hl1 a haa
    simp [hid, hne]
  · have hid : tt.id = mw.id := by rw [hbt.1]
    simp [hid]

/-- Unfolding `isWithinBounds` into its three inequalities. -/
theorem isWithinBounds_iff {r : GridRect} {c : Int} :
    isWithinBounds r c = true ↔ (r.x ≥ 0 ∧ r.x + r.w ≤ c ∧ r.y ≥ 0) := by
  simp [isWithinBounds]

/-- Bounds on the target widget of a `resolveCollisions` commit, derived
from bounds on the applied geometry. -/
theorem resolve_target_bounds (mv : Widget) (ws : List Widget) (columns : Int)
    (hany : (ws.any fun u => u.id == mv.id) = true)
    (hx0 : 0 ≤ mv.x) (hxw : mv.w ≤ columns → mv.x + mv.w ≤ columns) :
    ∃ t, (resolveCollisions mv ws).find? (fun v => v.id == mv.id) = some t ∧
      t.w = mv.w ∧ 0 ≤ t.x ∧ (t.w ≤ columns → t.x + t.w ≤ columns) := by
  obtain ⟨t, hf, ht, _⟩ := resolveCollisions_target mv ws hany
  have hx : t.x = mv.x := by rw [ht]
  have hw : t.w = mv.w := by rw [ht]
  refine ⟨t, hf, hw, by rw [hx]; exact hx0, fun hcol => ?_⟩
  rw [hx, hw]
  exact hxw (hw ▸ hcol)

/-- Claim C5 as amended: `moveWidget` returns `null` exactly for a missing
id or a `locked`/`noMove` widget; `resizeWidget` exactly for a missing id
or a `locked`/`noResize` widget; in every non-null result the target
widget's `x` is nonnegative, and `x + w ≤ columns` whenever the resulting
width fits the grid at all (`w ≤ columns`). -/
theorem claim_C5_amended (widgetId : Nat) (x y w h : Int) (ws : List Widget)
    (columns : Int) :
    (moveWidget widgetId x y ws columns = none ↔
      (∀ u ∈ ws, u.id ≠ widgetId) ∨
      (∃ u, ws.find? (fun v => v.id == widgetId) = some u ∧
        (u.locked = true ∨ u.noMove = true))) ∧
    (resizeWidget widgetId w h ws columns = none ↔
      (∀ u ∈ ws, u.id ≠ widgetId) ∨
      (∃ u, ws.find? (fun v => v.id == widgetId) = some u ∧
        (u.locked = true ∨ u.noResize = true))) ∧
    (∀ res, moveWidget widgetId x y ws columns = some res →
      ∃ t, res.find? (fun v => v.id == widgetId) = some t ∧
        0 ≤ t.x ∧ (t.w ≤ columns → t.x + t.w ≤ columns)) ∧
    (∀ res, resizeWidget widgetId w h ws columns = some res →
      ∃ t, res.find? (fun v => v.id == widgetId) = some t ∧
        0 ≤ t.x ∧ (t.w ≤ columns → t.x + t.w ≤ columns)) := by
  refine ⟨?_, ?_, ?_, ?_⟩
  · cases hfind : ws.find? (fun u => u.id == widgetId) with
    | none =>
      simp only [moveWidget, hfind, true_iff]
      exact Or.inl (fun u hu => by simpa using List.find?_eq_none.mp hfind u hu)
    | some u =>
      have hu_id : u.id = widgetId := by simpa using List.find?_some hfind
      by_cases hlk : (u.locked || u.noMove) = true
      · simp only [moveWidget, hfind, hlk, if_true, true_iff]
        exact Or.inr ⟨u, rfl, Bool.or_eq_true_iff.mp hlk⟩
      · have hlk' : (u.locked || u.noMove) = false := by
          revert hlk; cases hor : (u.locked || u.noMove) <;> simp
        simp only [moveWidget, hfind, hlk', Bool.false_eq_true, if_false,
          reduceCtorEq, false_iff]
        intro hrhs
        rcases hrhs with hleft | ⟨u', hfind', hl⟩
        · exact hleft u (List.mem_of_find?_eq_some hfind) hu_id
        · obtain rfl := Option.some.inj hfind'
          rcases hl with h1 | h1 <;> simp [h1] at hlk'
  · cases hfind : ws.find? (fun u => u.id == widgetId) with
    | none =>
      simp only [resizeWidget, hfind, true_iff]
      exact Or.inl (fun u hu => by simpa using List.find?_eq_none.mp hfind u hu)
    | some u =>
      have hu_id : u.id = widgetId := by simpa using List.find?_some hfind
      by_cases hlk : (u.locked || u.noResize) = true
      · simp only [resizeWidget, hfind, hlk, if_true, true_iff]
        exact Or.inr ⟨u, rfl, Bool.or_eq_true_iff.mp hlk⟩
      · have hlk' : (u.locked || u.noResize) = false := by
          revert hlk; cases hor : (u.locked || u.noResize) <;> simp
        simp only [resizeWidget, hfind, hlk', Bool.false_eq_true, if_false,
          reduceCtorEq, false_iff]
        intro hrhs
        rcases hrhs with hleft | ⟨u', hfind', hl⟩
        · exact hleft u (List.mem_of_find?_eq_some hfind) hu_id
        · obtain rfl := Option.some.inj hfind'
          rcases hl with h1 | h1 <;> simp [h1] at hlk'
  · intro res hres
    cases hfind : ws.find? (fun u => u.id == widgetId) with
    | none => simp [moveWidget, hfind] at hres
    | some u =>
      have hu_id : u.id = widgetId := by simpa using List.find?_some hfind
      have hmem : u ∈ ws := List.mem_of_find?_eq_some hfind
      by_cases hlk : (u.locked || u.noMove) = true
      · simp [moveWidget, hfind, hlk] at hres
      · have hlk' : (u.locked || u.noMove) = false := by
          revert hlk; cases hor : (u.locked || u.noMove) <;> simp
        simp only [moveWidget, hfind, hlk', Bool.false_eq_true, if_false,
          Option.some.injEq] at hres
        set m1 : Widget := { u with x := snapToGrid x, y := snapToGrid y } with hm1
        have hany : ∀ mv : Widget, mv.id = u.id →
            (ws.any fun v => v.id == mv.id) = true := by
          intro mv hmv
          refine List.any_eq_true.mpr ⟨u, hmem, ?_⟩
          simp [hmv]
        by_cases hbnd : isWithinBounds m1.rect columns = true
        · rw [if_pos hbnd] at hres
          obtain ⟨hx0, hxw, _⟩ := isWithinBounds_iff.mp hbnd
          obtain ⟨t, hf, _, htx, htw⟩ :=
            resolve_target_bounds m1 ws columns (hany m1 rfl) hx0 (fun _ => hxw)
          rw [hres] at hf
          simp only [hu_id] at hf
          exact ⟨t, hf, htx, htw⟩
        · rw [if_neg hbnd] at hres
          set m2 : Widget := { m1 with x := max 0 (min m1.x (columns - m1.w)),
                                       y := max 0 m1.y } with hm2
          have hx0 : (0 : Int) ≤ m2.x := le_max_left _ _
          have hxw : m2.w ≤ columns → m2.x + m2.w ≤ columns := by
            intro hcol
            have h1 : min m1.x (columns - m1.w) ≤ columns - m1.w := min_le_right _ _
            have h2 : m2.w = m1.w := rfl
            have h3 : (0 : Int) ≤ columns - m1.w := by omega
            have h4 : m2.x = max 0 (min m1.x (columns - m1.w)) := rfl
            have h5 : m2.x ≤ columns - m1.w := by
              rw [h4]; exact max_le h3 h1
            omega
          obtain ⟨t, hf, _, htx, htw⟩ :=
            resolve_target_bounds m2 ws columns (hany m2 rfl) hx0 hxw
          rw [hres] at hf
          simp only [hu_id] at hf
          exact ⟨t, hf, htx, htw⟩
  · intro res hres
    cases hfind : ws.find? (fun u => u.id == widgetId) with
    | none => simp [resizeWidget, hfind] at hres
    | some u =>
      have hu_id : u.id = widgetId := by simpa using List.find?_some hfind
      have hmem : u ∈ ws := List.mem_of_find?_eq_some hfind
      by_cases hlk : (u.locked || u.noResize) = true
      · simp [resizeWidget, hfind, hlk] at hres
      · have hlk' : (u.locked || u.noResize) = false := by
          revert hlk; cases hor : (u.locked || u.noResize) <;> simp
        simp only [resizeWidget, hfind, hlk', Bool.false_eq_true, if_false,
          Option.some.injEq] at hres
        set nW : Int := max (u.minW.getD 1) (min (u.maxW.getD columns) (snapToGrid w)) with hnW
        set nH : Int :=
          (match u.maxH with
           | none => max (u.minH.getD 1) (snapToGrid h)
           | some mH => max (u.minH.getD 1) (min mH (snapToGrid h))) with hnH
        set r1 : Widget := { u with w := nW, h := nH } with hr1
        have hany : ∀ mv : Widget, mv.id = u.id →
            (ws.any fun v => v.id == mv.id) = true := by
          intro mv hmv
          refine List.any_eq_true.mpr ⟨u, hmem, ?_⟩
          simp [hmv]
        by_cases hbnd : isWithinBounds r1.rect columns = true
        · rw [if_pos hbnd] at hres
          obtain ⟨hx0, hxw, _⟩ := isWithinBounds_iff.mp hbnd
          obtain ⟨t, hf, _, htx, htw⟩ :=
            resolve_target_bounds r1 ws columns (hany r1 rfl) hx0 (fun _ => hxw)
          rw [hres] at hf
          simp only [hu_id] at hf
          exact ⟨t, hf, htx, htw⟩
        · rw [if_neg hbnd] at hres
          set r2 : Widget := { r1 with x := max 0 (min r1.x (columns - r1.w)) } with hr2
          have hx0 : (0 : Int) ≤ r2.x := le_max_left _ _
          have hxw : r2.w ≤ columns → r2.x + r2.w ≤ columns := by
            intro hcol
            have h1 : min r1.x (columns - r1.w) ≤ columns - r1.w := min_le_right _ _
            have h2 : r2.w = r1.w := rfl
            have h3 : (0 : Int) ≤ columns - r1.w := by omega
            have h5 : r2.x ≤ columns - r1.w := max_le h3 h1
            omega
          obtain ⟨t, hf, _, htx, htw⟩ :=
            resolve_target_bounds r2 ws columns (hany r2 rfl) hx0 hxw
          rw [hres] at hf
          simp only [hu_id] at hf
          exact ⟨t, hf, htx, htw⟩

/-- Counterexample to C5 as stated: a widget wider than the grid
(`w = 15 > columns = 12`) is clamped to `x = 0`, which does not lie in the
then-empty interval `[0, columns - w] = [0, -3]`. -/
theorem claim_C5_counterexample :
    moveWidget 0 2 0
        [⟨0, 3, 0, 15, 1, none, none, none, none, false, false, false⟩] 12 =
      some [⟨0, 0, 0, 15, 1, none, none, none, none, false, false, false⟩] ∧
    ¬ ((0 : Int) ≤ 12 - (15 : Int)) :=
  ⟨by decide, by decide⟩

/-- Witness for C5: the null-condition instantiated at a one-widget
collection. -/
theorem claim_C5_witness :
    moveWidget 1 20 0
        [⟨1, 0, 0, 4, 3, none, none, none, none, false, false, false⟩] 12 = none ↔
      (∀ u ∈ [(⟨1, 0, 0, 4, 3, none, none, none, none, false, false, false⟩ : Widget)],
        u.id ≠ 1) ∨
      (∃ u, List.find? (fun v => v.id == 1)
          [(⟨1, 0, 0, 4, 3, none, none, none, none, false, false, false⟩ : Widget)] =
            some u ∧ (u.locked = true ∨ u.noMove = true)) :=
  (claim_C5_amended 1 20 0 5 4
    [⟨1, 0, 0, 4, 3, none, none, none, none, false, false, false⟩] 12).1

/-- `findSome?` over an append scans the left part first. -/
theorem scanFindSome_append {α β : Type} (l1 l2 : List α) (f : α → Option β) :
    (l1 ++ l2).findSome? f =
      match l1.findSome? f with
      | some b => some b
      | none => l2.findSome? f := by
  induction l1 with
  | nil => rfl
  | cons a l1 ih =>
    rw [List.cons_append]
    show (match f a with
          | some b => some b
          | none => (l1 ++ l2).findSome? f) = _
    cases hfa : f a with
    | some b => simp [List.findSome?_cons, hfa]
    | none => simpa [List.findSome?_cons, hfa] using ih

/-- `findSome?` over `range n` yields nothing exactly when every index
yields nothing. -/
theorem scanFindSome_range_none {β : Type} (f : Nat → Option β) :
    ∀ n, ((List.range n).findSome? f = none ↔ ∀ k < n, f k = none) := by
  intro n
  induction n with
  | zero => simp
  | succ n ih =>
    rw [List.range_succ, scanFindSome_append]
    cases hr : (List.range n).findSome? f with
    | some b =>
      simp only [reduceCtorEq, false_iff]
      intro hall
      have hnone : (List.range n).findSome? f = none :=
        ih.mpr (fun k hk => hall k (by omega))
      rw [hr] at hnone
      exact Option.some_ne_none b hnone
    | none =>
      cases hfn : f n with
      | some b =>
        simp only [List.findSome?_cons, hfn, reduceCtorEq, false_iff]
        intro hall
        have := hall n (by omega)
        rw [hfn] at this
        exact Option.some_ne_none b this
      | none =>
        simp only [List.findSome?_cons, hfn, List.findSome?_nil, true_iff]
        intro k hk
        rcases Nat.lt_succ_iff_lt_or_eq.mp hk with hk' | rfl
        · exact ih.mp hr k hk'
        · exact hfn

/-- `findSome?` over `range n` returns the value of the least productive
index. -/
theorem scanFindSome_range_min {β : Type} (f : Nat → Option β) (n m : Nat)
    (hm : m < n) (b : β) (hb : f m = some b)
    (hnone : ∀ k < m, f k = none) :
    (List.range n).findSome? f = some b := by
  induction n with
  | zero => omega
  | succ n ih =>
    rw [List.range_succ, scanFindSome_append]
    by_cases hn : m < n
    · rw [ih hn]
    · have hmn : m = n := by omega
      subst hmn
      have hpref : (List.range m).findSome? f = none :=
        (scanFindSome_range_none f m).mpr hnone
      rw [hpref]
      simp [List.findSome?_cons, hb]

/-- A least witness of a decidable property of naturals. -/
theorem nat_least {p : Nat → Prop} [DecidablePred p] (h : ∃ n, p n) :
    ∃ m, p m ∧ ∀ k < m, ¬ p k :=
  ⟨Nat.find h, Nat.find_spec h, fun _ hk => Nat.find_min h hk⟩

/-- Row-major minimality of the double scan: when some cell of the
rectangle `[0, xsN) × [0, ysN)` passes the test, the scan returns the cell
with the least row and, within it, the least column. -/
theorem double_scan_min (free : Nat → Nat → Bool) (xsN ysN : Nat)
    (xq yq : Nat) (hxq : xq < xsN) (hyq : yq < ysN) (hfq : free xq yq = true) :
    ∃ (xr yr : Nat),
      (List.range ysN).findSome? (fun yn => (List.range xsN).findSome? (fun xn =>
        if free xn yn then some ((xn : Int), (yn : Int)) else none)) =
        some ((xr : Int), (yr : Int)) ∧
      free xr yr = true ∧ xr < xsN ∧ yr < ysN ∧
      (yr < yq ∨ (yr = yq ∧ xr ≤ xq)) := by
  have hq : ∃ y, y < ysN ∧ (List.range xsN).any (fun x => free x y) = true :=
    ⟨yq, hyq, List.any_eq_true.mpr ⟨xq, List.mem_range.mpr hxq, hfq⟩⟩
  obtain ⟨yr, ⟨hyrN, hrow⟩, hymin⟩ := nat_least hq
  obtain ⟨x0, hx0N, hx0f⟩ := List.any_eq_true.mp hrow
  have hP : ∃ x, x < xsN ∧ free x yr = true := ⟨x0, List.mem_range.mp hx0N, hx0f⟩
  obtain ⟨xr, ⟨hxrN, hxrf⟩, hxmin⟩ := nat_least hP
  have hinner : (List.range xsN).findSome? (fun xn =>
      if free xn yr then some ((xn : Int), (yr : Int)) else none) =
      some ((xr : Int), (yr : Int)) := by
    refine scanFindSome_range_min _ xsN xr hxrN _ (by simp [hxrf]) ?_
    intro k hk
    have hknot : ¬(k < xsN ∧ free k yr = true) := hxmin k hk
    have hkfree : free k yr = false := by
      by_cases hkf : free k yr = true
      · exact absurd ⟨by omega, hkf⟩ hknot
      · revert hkf; cases free k yr <;> simp
    simp [hkfree]
  have houter : (List.range ysN).findSome? (fun yn => (List.range xsN).findSome?
      (fun xn => if free xn yn then some ((xn : Int), (yn : Int)) else none)) =
      some ((xr : Int), (yr : Int)) := by
    refine scanFindSome_range_min _ ysN yr hyrN _ (by simpa using hinner) ?_
    intro k hk
    have hknot : ¬(k < ysN ∧ (List.range xsN).any (fun x => free x k) = true) :=
      hymin k hk
    have hrowno : ∀ xk, xk < xsN → free xk k = false := by
      intro xk hxk
      by_cases hf : free xk k = true
      · exact absurd ⟨by omega,
          List.any_eq_true.mpr ⟨xk, List.mem_range.mpr hxk, hf⟩⟩ hknot
      · revert hf; cases free xk k <;> simp
    refine (scanFindSome_range_none _ xsN).mpr ?_
    intro xk hxk
    simp [hrowno xk hxk]
  refine ⟨xr, yr, houter, hxrf, hxrN, hyrN, ?_⟩
  have hyle : yr ≤ yq := by
    by_contra hcase
    exact hymin yq (by omega)
      ⟨hyq, List.any_eq_true.mpr ⟨xq, List.mem_range.mpr hxq, hfq⟩⟩
  rcases Nat.lt_or_ge yr yq with hlt | hge
  · exact Or.inl hlt
  · have heq : yr = yq := by omega
    refine Or.inr ⟨heq, ?_⟩
    by_contra hcase
    exact hxmin xq (by omega) ⟨hxq, heq ▸ hfq⟩

/-- `findFirstAvailablePosition` returns whatever the row-major scan
finds, when it finds something. -/
theorem findFirst_eq_of_scan (w h : Int) (widgets : List Widget) (columns : Int)
    (hw : ¬ w > columns) (p : Int × Int)
    (hscan : (List.range ((getBottomY widgets + 10) + 1).toNat).findSome?
      (fun (yn : Nat) => (List.range (columns - w + 1).toNat).findSome?
        (fun (xn : Nat) =>
          if rectFree w h widgets (xn : Int) (yn : Int) then
            some ((xn : Int), (yn : Int))
          else none)) = some p) :
    findFirstAvailablePosition w h widgets columns = p := by
  unfold findFirstAvailablePosition
  rw [if_neg hw]
  simp only [hscan]

/-- Minimal free slot returned by `findFirstAvailablePosition`: under a
free in-domain cell, the result is a free in-domain cell that is
row-major-first. -/
theorem findFirst_min (w h : Int) (widgets : List Widget) (columns : Int)
    (hw : w ≤ columns) (xq yq : Int) (hx0 : 0 ≤ xq) (hx1 : xq ≤ columns - w)
    (hy0 : 0 ≤ yq) (hy1 : yq ≤ getBottomY widgets + 10)
    (hfree : rectFree w h widgets xq yq = true) :
    rectFree w h widgets (findFirstAvailablePosition w h widgets columns).1
      (findFirstAvailablePosition w h widgets columns).2 = true ∧
    0 ≤ (findFirstAvailablePosition w h widgets columns).1 ∧
    (findFirstAvailablePosition w h widgets columns).1 ≤ columns - w ∧
    0 ≤ (findFirstAvailablePosition w h widgets columns).2 ∧
    (findFirstAvailablePosition w h widgets columns).2 ≤ getBottomY widgets + 10 ∧
    ((findFirstAvailablePosition w h widgets columns).2 < yq ∨
      ((findFirstAvailablePosition w h widgets columns).2 = yq ∧
        (findFirstAvailablePosition w h widgets columns).1 ≤ xq)) := by
  have hw' : ¬ w > columns := by omega
  have hxqN : xq.toNat < (columns - w + 1).toNat := by omega
  have hyqN : yq.toNat < ((getBottomY widgets + 10) + 1).toNat := by omega
  have hcastx : ((xq.toNat : Int)) = xq := Int.toNat_of_nonneg hx0
  have hcasty : ((yq.toNat : Int)) = yq := Int.toNat_of_nonneg hy0
  have hfq : rectFree w h widgets ((xq.toNat : Int)) ((yq.toNat : Int)) = true := by
    rw [hcastx, hcasty]; exact hfree
  obtain ⟨xr, yr, hscan, hfr, hxr, hyr, hmin⟩ :=
    double_scan_min (fun xn yn => rectFree w h widgets (xn : Int) (yn : Int))
      ((columns - w + 1).toNat) (((getBottomY widgets + 10) + 1).toNat)
      xq.toNat yq.toNat hxqN hyqN hfq
  have heq : findFirstAvailablePosition w h widgets columns = ((xr : Int), (yr : Int)) :=
    findFirst_eq_of_scan w h widgets columns hw' _ hscan
  have hx_eq : (findFirstAvailablePosition w h widgets columns).1 = (xr : Int) := by
    rw [heq]
  have hy_eq : (findFirstAvailablePosition w h widgets columns).2 = (yr : Int) := by
    rw [heq]
  rw [hx_eq, hy_eq]
  refine ⟨hfr, by omega, by omega, by omega, by omega, ?_⟩
  rcases hmin with hlt | ⟨hyeq, hle⟩
  · left; omega
  · right; omega

/-- Claim C2: `findFirstAvailablePosition` returns the row-major-first free
slot of the scan domain (smallest `y`, then smallest `x`), places a
too-wide widget at `(0, getBottomY)`, returns `(0, 0)` on an empty
collection, and `(0, 3)` for a fourth 4x3 widget under a full first
row. -/
theorem claim_C2 :
    (∀ (w h : Int) (widgets : List Widget) (columns : Int), w > columns →
      findFirstAvailablePosition w h widgets columns = (0, getBottomY widgets)) ∧
    (∀ (w h : Int) (widgets : List Widget) (columns : Int) (xq yq : Int),
      w ≤ columns → 0 ≤ xq → xq ≤ columns - w → 0 ≤ yq →
      yq ≤ getBottomY widgets + 10 → rectFree w h widgets xq yq = true →
      rectFree w h widgets (findFirstAvailablePosition w h widgets columns).1
        (findFirstAvailablePosition w h widgets columns).2 = true ∧
      0 ≤ (findFirstAvailablePosition w h widgets columns).1 ∧
      (findFirstAvailablePosition w h widgets columns).1 ≤ columns - w ∧
      0 ≤ (findFirstAvailablePosition w h widgets columns).2 ∧
      (findFirstAvailablePosition w h widgets columns).2 ≤ getBottomY widgets + 10 ∧
      ((findFirstAvailablePosition w h widgets columns).2 < yq ∨
        ((findFirstAvailablePosition w h widgets columns).2 = yq ∧
          (findFirstAvailablePosition w h widgets columns).1 ≤ xq))) ∧
    findFirstAvailablePosition 4 3 [] 12 = (0, 0) ∧
    findFirstAvailablePosition 4 3 rowFullC2 12 = (0, 3) := by
  refine ⟨?_, ?_, by decide, by decide⟩
  · intro w h widgets columns hgt
    unfold findFirstAvailablePosition
    rw [if_pos hgt]
  · intro w h widgets columns xq yq hw hx0 hx1 hy0 hy1 hfree
    exact findFirst_min w h widgets columns hw xq yq hx0 hx1 hy0 hy1 hfree

/-- Witness for C2: the scan minimality applied under the full first row,
with the free cell `(0, 3)` as the comparison point. -/
theorem claim_C2_witness :
    rectFree 4 3 rowFullC2 (findFirstAvailablePosition 4 3 rowFullC2 12).1
      (findFirstAvailablePosition 4 3 rowFullC2 12).2 = true ∧
    0 ≤ (findFirstAvailablePosition 4 3 rowFullC2 12).1 ∧
    (findFirstAvailablePosition 4 3 rowFullC2 12).1 ≤ 12 - 4 ∧
    0 ≤ (findFirstAvailablePosition 4 3 rowFullC2 12).2 ∧
    (findFirstAvailablePosition 4 3 rowFullC2 12).2 ≤ getBottomY rowFullC2 + 10 ∧
    ((findFirstAvailablePosition 4 3 rowFullC2 12).2 < 3 ∨
      ((findFirstAvailablePosition 4 3 rowFullC2 12).2 = 3 ∧
        (findFirstAvailablePosition 4 3 rowFullC2 12).1 ≤ 0)) :=
  claim_C2.2.1 4 3 rowFullC2 12 0 3 (by decide) (by decide) (by decide)
    (by decide) (by decide) (by decide)

/-- Totality of the sort comparator. -/
theorem wLe_of_not_wLe {a b : Widget} (h : ¬ wLe a b) : wLe b a := by
  unfold wLe at *
  omega

theorem insertW_perm (a : Widget) : ∀ l, List.Perm (insertW a l) (a :: l) := by
  intro l
  induction l with
  | nil => rfl
  | cons b l ih =>
    unfold insertW
    by_cases h : wLe a b
    · rw [if_pos h]
    · rw [if_neg h]
      exact (List.Perm.cons b ih).trans (List.Perm.swap a b l)

theorem sortWidgets_perm : ∀ l, List.Perm (sortWidgets l) l := by
  intro l
  induction l with
  | nil => rfl
  | cons a l ih =>
    unfold sortWidgets
    exact (insertW_perm a (sortWidgets l)).trans (List.Perm.cons a ih)

/-- Transitivity of the sort comparator. -/
theorem wLe_trans {a b c : Widget} (h1 : wLe a b) (h2 : wLe b c) : wLe a c := by
  unfold wLe at *
  omega

theorem pairwise_insertW (a : Widget) :
    ∀ l, List.Pairwise wLe l → (∀ b ∈ l, ¬ wLe a b → wLe b a) →
      List.Pairwise wLe (insertW a l) := by
  intro l
  induction l with
  | nil => intro _ _; exact List.pairwise_singleton wLe a
  | cons b l ih =>
    intro hp htot
    rw [List.pairwise_cons] at hp
    unfold insertW
    by_cases h : wLe a b
    · rw [if_pos h]
      refine List.pairwise_cons.mpr ⟨?_, List.pairwise_cons.mpr ⟨hp.1, hp.2⟩⟩
      intro c hc
      rcases List.mem_cons.mp hc with rfl | hc
      · exact h
      · exact wLe_trans h (hp.1 c hc)
    · rw [if_neg h]
      refine List.pairwise_cons.mpr ⟨?_, ih hp.2 (fun c hc hnc =>
        htot c (by simp [hc]) hnc)⟩
      intro c hc
      have hc' := (insertW_perm a l).mem_iff.mp hc
      rcases List.mem_cons.mp hc' with rfl | hc'
      · exact wLe_of_not_wLe h
      · exact hp.1 c hc'

theorem sorted_sortWidgets : ∀ l, List.Pairwise wLe (sortWidgets l) := by
  intro l
  induction l with
  | nil => exact List.Pairwise.nil
  | cons a l ih =>
    unfold sortWidgets
    exact pairwise_insertW a (sortWidgets l) ih (fun b _ hn => wLe_of_not_wLe hn)

/-- Full characterization of the move-up loop: only `y` changes and never
grows; on exit the widget sits at the top or one step up collides; and a
widget that did move sits collision-free at its final spot (the last step
into it was tested). -/
theorem moveUpAux_spec (comp : List Widget) :
    ∀ (n : Nat) (m : Widget), m.y ≤ (n : Int) →
      moveUpAux comp n m = { m with y := (moveUpAux comp n m).y } ∧
      (moveUpAux comp n m).y ≤ m.y ∧
      ((moveUpAux comp n m).y ≤ 0 ∨
        collides { moveUpAux comp n m with y := (moveUpAux comp n m).y - 1 } comp = true) ∧
      ((moveUpAux comp n m).y < m.y → collides (moveUpAux comp n m) comp = false) := by
  intro n
  induction n with
  | zero =>
    intro m hfuel
    refine ⟨rfl, le_refl _, Or.inl (by exact_mod_cast hfuel), ?_⟩
    intro hlt
    simp [moveUpAux] at hlt
  | succ n ih =>
    intro m hfuel
    unfold moveUpAux
    by_cases hc : (m.y > 0 && !collides { m with y := m.y - 1 } comp) = true
    · rw [if_pos hc]
      obtain ⟨hgt, hnc⟩ := Bool.and_eq_true_iff.mp hc
      have hgt' : (0 : Int) < m.y := by exact_mod_cast of_decide_eq_true hgt
      have hnc' : collides { m with y := m.y - 1 } comp = false := by
        revert hnc; cases collides { m with y := m.y - 1 } comp <;> simp
      obtain ⟨h1, h2, h3, h4⟩ := ih { m with y := m.y - 1 } (by simp; omega)
      refine ⟨h1, by simp at h2; omega, h3, ?_⟩
      intro hlt
      by_cases hmove : (moveUpAux comp n { m with y := m.y - 1 }).y < m.y - 1
      · exact h4 hmove
      · have heq : (moveUpAux comp n { m with y := m.y - 1 }).y = m.y - 1 := by
          simp at h2; omega
        have : moveUpAux comp n { m with y := m.y - 1 } = { m with y := m.y - 1 } := by
          rw [h1, heq]
        rw [this]
        exact hnc'
    · rw [if_neg hc]
      refine ⟨rfl, le_refl _, ?_, fun hlt => absurd hlt (by omega)⟩
      by_cases hcol : collides { m with y := m.y - 1 } comp = true
      · exact Or.inr hcol
      · have hb : collides { m with y := m.y - 1 } comp = false := by
          revert hcol; cases collides { m with y := m.y - 1 } comp <;> simp
        left
        by_cases hpos : (0 : Int) < m.y
        · exact absurd (by simp [hb, hpos]) hc
        · omega

/-- `moveUp` characterization (instantiating the fuel at `y.toNat`). -/
theorem moveUp_spec (comp : List Widget) (m : Widget) :
    moveUp comp m = { m with y := (moveUp comp m).y } ∧
    (moveUp comp m).y ≤ m.y ∧
    ((moveUp comp m).y ≤ 0 ∨
      collides { moveUp comp m with y := (moveUp comp m).y - 1 } comp = true) ∧
    ((moveUp comp m).y < m.y → collides (moveUp comp m) comp = false) :=
  moveUpAux_spec comp m.y.toNat m (Int.self_le_toNat m.y)

/-- A widget already settled against `comp` is fixed by `moveUp`. -/
theorem moveUp_settled (comp : List Widget) (m : Widget)
    (h : m.y ≤ 0 ∨ collides { m with y := m.y - 1 } comp = true) :
    moveUp comp m = m := by
  unfold moveUp
  cases hn : m.y.toNat with
  | zero => rfl
  | succ n =>
    unfold moveUpAux
    rw [if_neg]
    intro hcond
    obtain ⟨hgt, hnc⟩ := Bool.and_eq_true_iff.mp hcond
    have hgt' : (0 : Int) < m.y := by exact_mod_cast of_decide_eq_true hgt
    rcases h with h | h
    · omega
    · rw [h] at hnc
      simp at hnc

/-- Characterization of the compaction fold: the output extends the
accumulator by widgets that only moved up, and every element of the new
part is `moveUp` of its source against the accumulator extended with the
elements placed before it. -/
theorem compactFold_char :
    ∀ (s comp : List Widget),
      ∃ out, compactFold comp s = comp ++ out ∧
        List.Forall₂ (fun w0 u => u = { w0 with y := u.y } ∧ u.y ≤ w0.y) s out ∧
        (∀ A v B, out = A ++ v :: B →
          ∃ s1 w0 s2, s = s1 ++ w0 :: s2 ∧
            List.Forall₂ (fun a0 a => a = { a0 with y := a.y } ∧ a.y ≤ a0.y) s1 A ∧
            v = moveUp (comp ++ A) w0) := by
  intro s
  induction s with
  | nil =>
    intro comp
    refine ⟨[], by simp [compactFold], List.Forall₂.nil, ?_⟩
    intro A v B hsplit
    exact absurd hsplit (by simp)
  | cons w0 s ih =>
    intro comp
    obtain ⟨out', heq, hfa, hsplit⟩ := ih (comp ++ [moveUp comp w0])
    obtain ⟨hm1, hm2, _, _⟩ := moveUp_spec comp w0
    refine ⟨moveUp comp w0 :: out', ?_, List.Forall₂.cons ⟨hm1, hm2⟩ hfa, ?_⟩
    · unfold compactFold
      rw [heq]
      simp
    · intro A v B hABsplit
      cases A with
      | nil =>
        injection hABsplit with h1 h2
        refine ⟨[], w0, s, rfl, List.Forall₂.nil, ?_⟩
        rw [← h1]
        simp
      | cons a A' =>
        injection hABsplit with h1 h2
        subst h1
        obtain ⟨s1, w1, s2, hs, hfa1, hv⟩ := hsplit A' v B h2
        refine ⟨w0 :: s1, w1, s2, by rw [hs]; rfl,
          List.Forall₂.cons ⟨hm1, hm2⟩ hfa1, ?_⟩
        rw [hv]
        congr 1
        simp

/-- When every widget of `s` is already settled against the widgets before
it, the compaction fold moves nothing. -/
theorem compactFold_fixed :
    ∀ (s comp : List Widget),
      (∀ A v B, s = A ++ v :: B →
        (v.y ≤ 0 ∨ collides { v with y := v.y - 1 } (comp ++ A) = true)) →
      compactFold comp s = comp ++ s := by
  intro s
  induction s with
  | nil => intro comp _; simp [compactFold]
  | cons v s ih =>
    intro comp hset
    have hv : v.y ≤ 0 ∨ collides { v with y := v.y - 1 } comp = true := by
      have := hset [] v s rfl
      simpa using this
    have hmv : moveUp comp v = v := moveUp_settled comp v hv
    unfold compactFold
    rw [hmv]
    rw [ih (comp ++ [v]) ?_]
    · simp
    · intro A v' B hsplit
      have := hset (v :: A) v' B (by rw [hsplit]; rfl)
      simpa [List.append_assoc] using this

theorem checkCollision_true_iff {a b : GridRect} :
    checkCollision a b = true ↔
      ¬(a.x + a.w ≤ b.x ∨ b.x + b.w ≤ a.x ∨ a.y + a.h ≤ b.y ∨ b.y + b.h ≤ a.y) := by
  unfold checkCollision
  exact decide_eq_true_iff

theorem checkCollision_false_iff {a b : GridRect} :
    checkCollision a b = false ↔
      (a.x + a.w ≤ b.x ∨ b.x + b.w ≤ a.x ∨ a.y + a.h ≤ b.y ∨ b.y + b.h ≤ a.y) := by
  unfold checkCollision
  rw [decide_eq_false_iff_not]
  exact not_not

theorem collides_true_iff {m : Widget} {comp : List Widget} :
    collides m comp = true ↔ ∃ b ∈ comp, checkCollision m.rect b.rect = true := by
  unfold collides
  rw [List.any_eq_true]

theorem collides_false {m : Widget} {comp : List Widget}
    (h : collides m comp = false) (b : Widget) (hb : b ∈ comp) :
    checkCollision m.rect b.rect = false := by
  by_cases hc : checkCollision m.rect b.rect = true
  · exfalso
    have htrue : collides m comp = true := collides_true_iff.mpr ⟨b, hb, hc⟩
    rw [h] at htrue
    exact Bool.false_ne_true htrue
  · revert hc; cases checkCollision m.rect b.rect <;> simp

theorem rect_set_y (v : Widget) (ny : Int) :
    ({ v with y := ny } : Widget).rect = ⟨v.x, ny, v.w, v.h⟩ := rfl

/-- Stability of the insertion step: the elements an insertion skips have
strictly smaller keys, so the elements carrying one fixed key keep their
relative order, with the inserted one in front when it carries the key. -/
theorem filter_insertW (ky kx : Int) (a : Widget) :
    ∀ m, (insertW a m).filter (keyEq ky kx) =
      if keyEq ky kx a then a :: m.filter (keyEq ky kx)
      else m.filter (keyEq ky kx) := by
  intro m
  induction m with
  | nil => cases hpa : keyEq ky kx a <;> simp [insertW, hpa]
  | cons b l ih =>
    unfold insertW
    by_cases hab : wLe a b
    · rw [if_pos hab]
      cases hpa : keyEq ky kx a <;> simp [List.filter_cons, hpa]
    · rw [if_neg hab]
      by_cases hpb : keyEq ky kx b = true
      · by_cases hpa : keyEq ky kx a = true
        · exfalso
          simp [keyEq] at hpa hpb
          exact hab (by unfold wLe; omega)
        · have hpa' : keyEq ky kx a = false := by
            revert hpa; cases keyEq ky kx a <;> simp
          simp [List.filter_cons, hpb, hpa'] at ih ⊢
          exact ih
      · have hpb' : keyEq ky kx b = false := by
          revert hpb; cases keyEq ky kx b <;> simp
        cases hpa : keyEq ky kx a <;>
          simp [List.filter_cons, hpb', hpa] at ih ⊢ <;> exact ih

/-- Stability of `sortWidgets`: the widgets carrying one fixed `(y, x)` key
appear in the sorted output in their input order. -/
theorem filter_sortWidgets (ky kx : Int) :
    ∀ l, (sortWidgets l).filter (keyEq ky kx) = l.filter (keyEq ky kx) := by
  intro l
  induction l with
  | nil => rfl
  | cons a l ih =>
    unfold sortWidgets
    rw [filter_insertW]
    cases hpa : keyEq ky kx a <;> simp [List.filter_cons, hpa, ih]

/-- A decomposition of a filtered list at one kept element lifts to a
decomposition of the list itself, splitting the filter accordingly. -/
theorem filter_split {p : Widget → Bool} :
    ∀ (l F1 : List Widget) (v : Widget) (F2 : List Widget),
      l.filter p = F1 ++ v :: F2 →
      ∃ l1 l2, l = l1 ++ v :: l2 ∧ l1.filter p = F1 ∧ l2.filter p = F2 := by
  intro l
  induction l with
  | nil =>
    intro F1 v F2 h
    rw [List.filter_nil] at h
    cases F1 <;> simp at h
  | cons a l ih =>
    intro F1 v F2 h
    by_cases hpa : p a = true
    · rw [List.filter_cons_of_pos hpa] at h
      cases F1 with
      | nil =>
        injection h with h1 h2
        subst h1
        exact ⟨[], l, rfl, rfl, h2⟩
      | cons f F1' =>
        injection h with h1 h2
        subst h1
        obtain ⟨l1, l2, hl, hf1, hf2⟩ := ih F1' v F2 h2
        refine ⟨a :: l1, l2, by rw [hl]; rfl, ?_, hf2⟩
        rw [List.filter_cons_of_pos hpa, hf1]
    · have hpa' : ¬ p a = true := hpa
      rw [List.filter_cons_of_neg hpa'] at h
      obtain ⟨l1, l2, hl, hf1, hf2⟩ := ih F1 v F2 h
      refine ⟨a :: l1, l2, by rw [hl]; rfl, ?_, hf2⟩
      rw [List.filter_cons_of_neg hpa', hf1]

/-- Every split of the re-sorted compacted layout is settled: a second
compaction pass cannot move any widget, provided all heights are positive.
Ties between equal `(y, x)` keys are resolved by stability of the sort. -/
theorem pass2_settled (L : List Widget)
    (hh : ∀ wd ∈ L, 1 ≤ wd.h) :
    ∀ A v B, sortWidgets (compactLayout L) = A ++ v :: B →
      (v.y ≤ 0 ∨ collides { v with y := v.y - 1 } A = true) := by
  intro A v B hsplit
  by_cases hvy : v.y ≤ 0
  · exact Or.inl hvy
  right
  obtain ⟨out, hout, hfa, hsplitchar⟩ := compactFold_char (sortWidgets L) []
  have hLout : compactLayout L = out := by simpa [compactLayout] using hout
  have hs0sorted := sorted_sortWidgets L
  have hperm : List.Perm (sortWidgets L) L := sortWidgets_perm L
  have hh0 : ∀ wd ∈ sortWidgets L, 1 ≤ wd.h := fun wd hw => hh wd (hperm.mem_iff.mp hw)
  have hsorted_out : sortWidgets out = A ++ v :: B := by rw [← hLout]; exact hsplit
  have hpkv : keyEq v.y v.x v = true := by simp [keyEq]
  have hfilter : out.filter (keyEq v.y v.x) =
      A.filter (keyEq v.y v.x) ++ v :: B.filter (keyEq v.y v.x) := by
    rw [← filter_sortWidgets v.y v.x out, hsorted_out]
    simp [List.filter_append, List.filter_cons, hpkv]
  obtain ⟨A₁, B₁, hA₁, hfA₁, _⟩ := filter_split out _ v _ hfilter
  obtain ⟨s1, w0, s2, hs0, hfa1, hveq⟩ := hsplitchar A₁ v B₁ hA₁
  have hveq' : v = moveUp A₁ w0 := by simpa using hveq
  obtain ⟨hw1, hw2, hw3, hw4⟩ := moveUp_spec A₁ w0
  rw [← hveq'] at hw1 hw2 hw3 hw4
  have hcol : collides { v with y := v.y - 1 } A₁ = true := by
    rcases hw3 with h | h
    · omega
    · exact h
  obtain ⟨b, hbA₁, hbc⟩ := collides_true_iff.mp hcol
  obtain ⟨a0, ha0s1, hb_eq, hb_y⟩ := forall₂_mem_right hfa1 b hbA₁
  have ha0mem : a0 ∈ sortWidgets L := by rw [hs0]; simp [ha0s1]
  have hbh : 1 ≤ b.h := by
    have hbh' : b.h = a0.h := by rw [hb_eq]
    rw [hbh']
    exact hh0 a0 ha0mem
  have hbc' := hbc
  simp only [rect_set_y, Widget.rect, checkCollision_true_iff] at hbc'
  push_neg at hbc'
  have hklt : b.y < v.y ∨ (b.y = v.y ∧ b.x < v.x) ∨ (b.y = v.y ∧ b.x = v.x) := by
    by_cases hby : b.y < v.y
    · exact Or.inl hby
    · have hnm : v.y = w0.y := by
        by_contra hne
        have hvlt : v.y < w0.y := by omega
        have hnc := hw4 hvlt
        have hvb := collides_false hnc b hbA₁
        simp only [Widget.rect, checkCollision_false_iff] at hvb
        omega
      have hvx : v.x = w0.x := by rw [hw1]
      have ha0w0 : wLe a0 w0 := by
        rw [hs0, List.pairwise_append] at hs0sorted
        exact hs0sorted.2.2 a0 ha0s1 w0 (by simp)
      have hbx_eq : b.x = a0.x := by rw [hb_eq]
      unfold wLe at ha0w0
      rcases ha0w0 with hlt | ⟨hy0, hx0⟩
      · omega
      · omega
  have hstrict_to_A : (b.y < v.y ∨ (b.y = v.y ∧ b.x < v.x)) → b ∈ A := by
    intro hstr
    have hbout : b ∈ out := by
      rw [hA₁]
      exact List.mem_append_left _ hbA₁
    have hbsorted : b ∈ A ++ v :: B := by
      rw [← hsplit]
      refine (sortWidgets_perm _).mem_iff.mpr ?_
      rw [hLout]
      exact hbout
    rcases List.mem_append.mp hbsorted with h | h
    · exact h
    · rcases List.mem_cons.mp h with rfl | h
      · rcases hstr with h1 | ⟨h1, h2⟩ <;> omega
      · exfalso
        have hsorted' := sorted_sortWidgets (compactLayout L)
        rw [hsplit, List.pairwise_append] at hsorted'
        have hcons := hsorted'.2.1
        rw [List.pairwise_cons] at hcons
        have hvb := hcons.1 b h
        unfold wLe at hvb
        rcases hstr with h1 | ⟨h1, h2⟩ <;> omega
  have hbA : b ∈ A := by
    rcases hklt with h1 | h2 | ⟨hty, htx⟩
    · exact hstrict_to_A (Or.inl h1)
    · exact hstrict_to_A (Or.inr h2)
    · have hpkb : keyEq v.y v.x b = true := by simp [keyEq, hty, htx]
      have hmem : b ∈ A₁.filter (keyEq v.y v.x) := List.mem_filter.mpr ⟨hbA₁, hpkb⟩
      rw [hfA₁] at hmem
      exact (List.mem_filter.mp hmem).1
  exact collides_true_iff.mpr ⟨b, hbA, hbc⟩

/-- Counterexample to C4 as stated: compacting `layoutC4` leaves widget 2
at `(0, 5)` but moves widget 3 to `(1, 0)`; the second compaction re-sorts
the array, so widget 3 now precedes widget 2 and the arrays differ, even
though no widget's position changes. -/
theorem claim_C4_counterexample :
    compactLayout (compactLayout layoutC4) ≠ compactLayout layoutC4 := by
  decide

/-- Claim C4 as amended: a second `compactLayout` moves no widget, it only
re-sorts the array — `compactLayout ∘ compactLayout = sortWidgets ∘
compactLayout` — for collections whose widgets have positive heights. -/
theorem claim_C4_amended (L : List Widget)
    (hh : ∀ wd ∈ L, 1 ≤ wd.h) :
    compactLayout (compactLayout L) = sortWidgets (compactLayout L) := by
  show compactFold [] (sortWidgets (compactLayout L)) = sortWidgets (compactLayout L)
  have hfix := compactFold_fixed (sortWidgets (compactLayout L)) [] ?_
  · simpa using hfix
  · intro A v B hsplit
    have hset := pass2_settled L hh A v B hsplit
    simpa using hset

/-- Witness for C4 at the counterexample collection itself (positive
heights): the second pass only re-sorts. -/
theorem claim_C4_witness :
    compactLayout (compactLayout layoutC4) = sortWidgets (compactLayout layoutC4) :=
  claim_C4_amended layoutC4 (by decide)
